import Mathlib

/-!
Verification of the KSL lyric-assistant repository: the phonetic/lyrics
analysis engine described by the specification (syllable estimation, rhyme
classification, section segmentation, corpus theme statistics) and the web
front end's editor/loading state stores.

The analysis engine itself is a backend service whose source is not among
the provided repository files (only its API declarations and callers are),
so its definitions below are modelled from the specification's words and
say so in their doc comments.  The store definitions are translated from
the TypeScript store sources directly.
-/

namespace KSL

/-- Whitespace characters recognised by the engine's text handling
(space, tab, carriage return, newline). -/
def isWs (c : Char) : Bool := c = ' ' || c = '\t' || c = '\r' || c = '\n'

/-- Drop leading and trailing whitespace from a character list. -/
def trimChars (cs : List Char) : List Char :=
  ((cs.dropWhile isWs).reverse.dropWhile isWs).reverse

/-- Trim of a string: model of the usual trim applied to the engine's and
the front end's text inputs. -/
def strTrim (s : String) : String := ⟨trimChars s.data⟩

/-- Split a character list at whitespace, accumulating the current word
in reverse. -/
def splitWsAux : List Char → List Char → List (List Char)
  | cur, [] => [cur.reverse]
  | cur, c :: cs =>
    if isWs c then cur.reverse :: splitWsAux [] cs
    else splitWsAux (c :: cur) cs

/-- The whitespace-separated words of a string (empty pieces dropped). -/
def splitWords (s : String) : List String :=
  ((splitWsAux [] s.data).map (fun cs => (⟨cs⟩ : String))).filter (fun w => w ≠ "")

/-- Vowel letters in cluster context, per the spec's heuristic: a, e, i,
o, u, y. -/
def isVowelChar (c : Char) : Bool :=
  c = 'a' || c = 'e' || c = 'i' || c = 'o' || c = 'u' || c = 'y'

/-- Count maximal vowel clusters; the Boolean records whether the previous
character was a vowel, so a cluster is counted once at its first letter. -/
def countNucleiAux : Bool → List Char → Nat
  | _, [] => 0
  | prevV, c :: cs =>
    let v := isVowelChar c
    (if v && !prevV then 1 else 0) + countNucleiAux v cs

/-- Number of maximal vowel clusters (syllable nuclei) of a letter list. -/
def countNuclei (cs : List Char) : Nat := countNucleiAux false cs

/-- A trailing letter e not preceded by another vowel (the spec's silent-e
exception). -/
def silentTrailingE (cs : List Char) : Bool :=
  match cs.reverse with
  | 'e' :: p :: _ => !isVowelChar p
  | _ => false

/-- Modelled from the spec: the Syllable Estimator backed by the
Pronunciation Resolver's heuristic (the backend analysis service is not
among the repository files; this follows sections 4.1 and 4.2).  Maximal
vowel clusters of a-e-i-o-u-y are the nuclei; a silent trailing e not
preceded by another vowel does not count unless it is the only nucleus;
any token with at least one alphabetic character yields at least one
syllable, and a token with none yields zero. -/
def syllables (w : String) : Nat :=
  if w.data.any Char.isAlpha then
    let cs := w.data.map Char.toLower
    let n := countNuclei cs
    let n1 := if silentTrailingE cs ∧ 1 < n then n - 1 else n
    max 1 n1
  else 0

/-- Modelled from the spec: the syllable count of a whole line is the sum
of the per-word counts (punctuation-only tokens contribute zero). -/
def lineSyllables (line : String) : Nat :=
  ((splitWords line).map syllables).sum

/-- The syllable count is a natural number: never negative. -/
theorem lineSyllables_nonneg (line : String) : 0 ≤ lineSyllables line :=
  Nat.zero_le _

/-- C1: for every non-empty alphabetic word the Syllable Estimator returns
at least 1, and for every input the count is an integer greater than or
equal to 0; the spec's examples cat (1 syllable) and banana (3 syllables)
come out as stated. -/
theorem syllables_count_spec :
    (∀ w : String, w ≠ "" → w.data.all Char.isAlpha → 1 ≤ syllables w) ∧
    (∀ s : String, 0 ≤ lineSyllables s) ∧
    syllables "cat" = 1 ∧ syllables "banana" = 3 := by
  refine ⟨?_, fun s => Nat.zero_le _, by decide, by decide⟩
  intro w hne hall
  have hd : w.data ≠ [] := by
    intro h
    apply hne
    cases w with
    | mk d => simp only at h; simp [h]
  have hany : w.data.any Char.isAlpha = true := by
    cases hw : w.data with
    | nil => exact absurd hw hd
    | cons c cs =>
      rw [hw] at hall
      simp only [List.all_cons, Bool.and_eq_true] at hall
      simp [List.any_cons, hall.1]
  unfold syllables
  rw [hany]
  simp only [if_true]
  exact Nat.le_max_left 1 _

/-- Modelled from the spec: the heuristic phonetic representation of a
word (the Pronunciation Resolver's fallback, section 4.1): its alphabetic
characters, lowercased, each letter one phoneme symbol, vowels marked by
`isVowelChar`.  No stress is determinable heuristically, so the final
vowel plays the role of the last stressed vowel in RhymeKey derivation. -/
def phonemes (w : String) : List Char :=
  (w.data.map Char.toLower).filter Char.isAlpha

/-- Scan a reversed phoneme list and keep everything up to and including
the first vowel met (the last vowel of the original); with no vowel at
all the whole list is kept. -/
def keyRev : List Char → List Char
  | [] => []
  | c :: cs => if isVowelChar c then [c] else c :: keyRev cs

/-- Modelled from the spec: RhymeKey derivation (section 3): the phoneme
suffix from the last (stressed, here: final) vowel to the end; a
vowel-free sequence is its own key. -/
def rhymeKey (p : List Char) : List Char := (keyRev p.reverse).reverse

/-- The RhymeKey of a word, derived from its phoneme form. -/
def rhymeKeyOfWord (w : String) : List Char := rhymeKey (phonemes w)

theorem keyRev_idem (l : List Char) : keyRev (keyRev l) = keyRev l := by
  induction l with
  | nil => rfl
  | cons c cs ih =>
    by_cases h : isVowelChar c
    · simp [keyRev, h]
    · simp only [keyRev, h, Bool.false_eq_true, if_false, if_neg]
      simp [keyRev, h, ih]

/-- C5: RhymeKey derivation is idempotent: for every word, reapplying the
derivation to the phoneme form of its RhymeKey returns the same key (a
key is already a phoneme sequence, so it is its own phoneme form); on the
concrete word cat the key is the letter sequence a-t. -/
theorem rhymeKey_idem :
    (∀ w : String, rhymeKey (rhymeKeyOfWord w) = rhymeKeyOfWord w) ∧
    rhymeKeyOfWord "cat" = ['a', 't'] := by
  refine ⟨fun w => ?_, by decide⟩
  unfold rhymeKeyOfWord rhymeKey
  rw [List.reverse_reverse, keyRev_idem]

/-- The four rhyme tiers of the Rhyme Classifier. -/
inductive Tier
  | perfect
  | near
  | slant
  | none
deriving DecidableEq, Repr

/-- Modelled from the spec: the fixed near-consonant equivalence table,
grouped by manner and voicing (voiced/voiceless stop pairs, the
labiodental and alveolar fricative pairs, the nasal pair); the spec
leaves the exact membership to the implementer as a versioned constant,
and this is the pinned choice. -/
def nearPairs : List (Char × Char) :=
  [('p', 'b'), ('t', 'd'), ('k', 'g'), ('f', 'v'), ('s', 'z'), ('m', 'n')]

/-- Whether two consonants form a near pair (in either order). -/
def nearConsonant (a b : Char) : Bool :=
  nearPairs.any (fun pr => (pr.1 = a && pr.2 = b) || (pr.1 = b && pr.2 = a))

/-- The vowels of a rhyme tail, in order. -/
def tailVowels (k : List Char) : List Char := k.filter isVowelChar

/-- Both keys end in consonants that form a near pair. -/
def nearLast (ka kb : List Char) : Bool :=
  match ka.getLast?, kb.getLast? with
  | some x, some y => !isVowelChar x && !isVowelChar y && nearConsonant x y
  | _, _ => false

/-- Both keys end in the same consonant. -/
def sameLastConsonant (ka kb : List Char) : Bool :=
  match ka.getLast?, kb.getLast? with
  | some x, some y => x = y && !isVowelChar x
  | _, _ => false

/-- Modelled from the spec: the Rhyme Classifier (section 4.3).  Tier
precedence is perfect, then near (keys differ only in a final consonant
that lies in the near table), then slant (assonance: tail vowels match;
or consonance: the final consonant matches), then none; the if-chain
makes the tiers mutually exclusive by construction. -/
def classify (a b : String) : Tier :=
  let ka := rhymeKeyOfWord a
  let kb := rhymeKeyOfWord b
  if ka = kb then Tier.perfect
  else if ka.dropLast = kb.dropLast ∧ nearLast ka kb then Tier.near
  else if tailVowels ka = tailVowels kb ∨ sameLastConsonant ka kb then Tier.slant
  else Tier.none

/-- The three result lists of a corpus-wide rhymes query. -/
structure RhymeResult where
  perfect : List String
  near : List String
  slant : List String
deriving DecidableEq, Repr

/-- Modelled from the spec: the corpus-wide rhymes query (sections 4.3
and 6): each tier's list holds the deduplicated corpus words, the query
word itself excluded, whose classification against the query word is that
tier; it is a total function, so an unmatched corpus yields empty lists
and never an error.  The spec's frequency-then-lexicographic ordering of
each list is not modelled: the claims under check are order-independent. -/
def rhymes (corpus : List String) (w : String) : RhymeResult :=
  let others := (corpus.filter (fun v => v ≠ w)).dedup
  { perfect := others.filter (fun v => classify w v = Tier.perfect)
  , near := others.filter (fun v => classify w v = Tier.near)
  , slant := others.filter (fun v => classify w v = Tier.slant) }

/-- C2: the classifier assigns every pair exactly one of the four tiers,
and the perfect, near and slant lists of a corpus-wide query are pairwise
disjoint and exclude the query word; the spec's example pair cat/hat is
a perfect rhyme. -/
theorem classify_tier_spec :
    (∀ a b : String,
      classify a b = Tier.perfect ∨ classify a b = Tier.near ∨
      classify a b = Tier.slant ∨ classify a b = Tier.none) ∧
    (∀ corpus w v, ¬ (v ∈ (rhymes corpus w).perfect ∧ v ∈ (rhymes corpus w).near)) ∧
    (∀ corpus w v, ¬ (v ∈ (rhymes corpus w).perfect ∧ v ∈ (rhymes corpus w).slant)) ∧
    (∀ corpus w v, ¬ (v ∈ (rhymes corpus w).near ∧ v ∈ (rhymes corpus w).slant)) ∧
    (∀ corpus w, w ∉ (rhymes corpus w).perfect ∧ w ∉ (rhymes corpus w).near ∧
      w ∉ (rhymes corpus w).slant) ∧
    classify "cat" "hat" = Tier.perfect := by
  have hmem : ∀ (corpus : List String) (w v : String) (t : Tier),
      v ∈ ((corpus.filter (fun u => u ≠ w)).dedup.filter (fun u => classify w u = t)) →
      v ≠ w ∧ classify w v = t := by
    intro corpus w v t hv
    have h1 := List.mem_filter.mp hv
    have h2 := List.mem_filter.mp (List.mem_dedup.mp h1.1)
    refine ⟨by simpa using h2.2, by simpa using h1.2⟩
  refine ⟨?_, ?_, ?_, ?_, ?_, by decide⟩
  · intro a b
    cases h : classify a b
    · exact Or.inl rfl
    · exact Or.inr (Or.inl rfl)
    · exact Or.inr (Or.inr (Or.inl rfl))
    · exact Or.inr (Or.inr (Or.inr rfl))
  · rintro corpus w v ⟨h1, h2⟩
    have e1 := (hmem corpus w v Tier.perfect h1).2
    have e2 := (hmem corpus w v Tier.near h2).2
    rw [e1] at e2
    exact Tier.noConfusion e2
  · rintro corpus w v ⟨h1, h2⟩
    have e1 := (hmem corpus w v Tier.perfect h1).2
    have e2 := (hmem corpus w v Tier.slant h2).2
    rw [e1] at e2
    exact Tier.noConfusion e2
  · rintro corpus w v ⟨h1, h2⟩
    have e1 := (hmem corpus w v Tier.near h1).2
    have e2 := (hmem corpus w v Tier.slant h2).2
    rw [e1] at e2
    exact Tier.noConfusion e2
  · intro corpus w
    refine ⟨fun h => ?_, fun h => ?_, fun h => ?_⟩
    · exact (hmem corpus w w Tier.perfect h).1 rfl
    · exact (hmem corpus w w Tier.near h).1 rfl
    · exact (hmem corpus w w Tier.slant h).1 rfl

/-- C7: querying rhymes for a word against a corpus in which nothing
matches (every corpus entry is the query word itself or classifies as no
rhyme) returns empty perfect, near and slant lists; the query is a total
function, so this outcome is a value, not an error. -/
theorem rhymes_no_match (corpus : List String) (w : String)
    (h : ∀ v ∈ corpus, v = w ∨ classify w v = Tier.none) :
    rhymes corpus w = ⟨[], [], []⟩ := by
  have hnone : ∀ t : Tier, t ≠ Tier.none →
      (corpus.filter (fun v => v ≠ w)).dedup.filter (fun v => classify w v = t) = [] := by
    intro t ht
    rw [List.filter_eq_nil_iff]
    intro v hv
    have h2 := List.mem_filter.mp (List.mem_dedup.mp hv)
    have hvw : v ≠ w := by simpa using h2.2
    rcases h v h2.1 with h3 | h3
    · exact absurd h3 hvw
    · simp only [h3, decide_eq_true_eq]
      intro e
      exact ht e.symm
  unfold rhymes
  simp only
  rw [hnone Tier.perfect (by decide), hnone Tier.near (by decide),
    hnone Tier.slant (by decide)]

/-- Witness for C7 at a concrete input: the empty corpus has no matches
for the word cat, and the query returns three empty lists. -/
theorem rhymes_no_match_witness : rhymes [] "cat" = ⟨[], [], []⟩ :=
  rhymes_no_match [] "cat" (by simp)

/-- The closed set of section types of the Section Segmenter. -/
inductive SectionType
  | intro
  | preHook
  | hook
  | postHook
  | verse
  | bridge
  | outro
  | unknown
deriving DecidableEq, Repr

/-- A typed, deduplicated section: its line texts, how often its
(type, lines) content occurred, and the 1-based positions of the original
blocks that matched, in document order. -/
structure Section where
  type : SectionType
  lines : List String
  occurrenceCount : Nat
  positions : List Nat
deriving DecidableEq, Repr

/-- Split a character list at newline characters, accumulating the
current line in reverse. -/
def splitLinesAux : List Char → List Char → List (List Char)
  | cur, [] => [cur.reverse]
  | cur, c :: cs =>
    if c = '\n' then cur.reverse :: splitLinesAux [] cs
    else splitLinesAux (c :: cur) cs

/-- The lines of a raw text, split at newlines. -/
def splitLines (s : String) : List String :=
  (splitLinesAux [] s.data).map (fun cs => (⟨cs⟩ : String))

/-- A marker line: once trimmed, the line consists solely of a bracketed
label, opening with a left bracket and closing with a right bracket. -/
def isMarkerLine (l : String) : Bool :=
  match trimChars l.data with
  | '[' :: rest =>
    match rest.reverse with
    | ']' :: _ => true
    | _ => false
  | _ => false

/-- The normalized label of a marker line: its alphabetic characters,
lowercased (case-insensitive, punctuation and digits stripped). -/
def markerLabel (l : String) : String :=
  ⟨((trimChars l.data).filter Char.isAlpha).map Char.toLower⟩

/-- Map a normalized label to its section type; unrecognized labels map
to unknown. -/
def sectionTypeOf (label : String) : SectionType :=
  if label = "intro" then SectionType.intro
  else if label = "prehook" then SectionType.preHook
  else if label = "hook" then SectionType.hook
  else if label = "posthook" then SectionType.postHook
  else if label = "verse" then SectionType.verse
  else if label = "bridge" then SectionType.bridge
  else if label = "outro" then SectionType.outro
  else SectionType.unknown

/-- A parsed block before deduplication: a section type and the raw lines
under its marker. -/
structure RawBlock where
  type : SectionType
  lines : List String
deriving DecidableEq, Repr

/-- Parse the lines after the first marker into blocks: a marker line
closes the current block and opens a new one of the marker's type; the
current block's lines are accumulated in reverse. -/
def parseMarked (t : SectionType) (cur : List String) : List String → List RawBlock
  | [] => [⟨t, cur.reverse⟩]
  | l :: ls =>
    if isMarkerLine l then
      ⟨t, cur.reverse⟩ :: parseMarked (sectionTypeOf (markerLabel l)) [] ls
    else parseMarked t (l :: cur) ls

/-- The non-blank lines of a block, which become the Section's line
sequence (this also trims leading and trailing blank lines). -/
def contentLines (ls : List String) : List String :=
  ls.filter (fun l => strTrim l ≠ "")

/-- Merge one block into the accumulated deduplicated sections: an
existing section with the same type and line sequence gets its occurrence
count incremented and the block's position appended; otherwise a new
section with count 1 is added at the end (first-occurrence order). -/
def addBlock : List Section → SectionType → List String → Nat → List Section
  | [], t, lns, pos => [⟨t, lns, 1, [pos]⟩]
  | s :: ss, t, lns, pos =>
    if s.type = t ∧ s.lines = lns then
      { s with occurrenceCount := s.occurrenceCount + 1,
               positions := s.positions ++ [pos] } :: ss
    else s :: addBlock ss t lns pos

/-- Fold the kept blocks into deduplicated sections, numbering block
positions from the given 1-based counter in document order. -/
def dedupBlocks : Nat → List Section → List RawBlock → List Section
  | _, acc, [] => acc
  | pos, acc, b :: bs => dedupBlocks (pos + 1) (addBlock acc b.type b.lines pos) bs

/-- Modelled from the spec: the Section Segmenter (section 4.5, the
backend service is not among the repository files).  The text splits at
marker lines; text before the first marker is its own block, typed intro
when it is non-blank and no longer (in non-blank lines) than the first
labeled block — the spec leaves the exact shortness threshold as a
heuristic choice — and unknown otherwise; each block keeps its non-blank
lines and fully blank labeled blocks are dropped; equivalent blocks
(same type and line sequence) collapse into one Section with an
occurrence count and 1-based position list.  Failure policy: with no
markers at all the entire text becomes a single unknown-typed Section,
not an error. -/
def segment (raw : String) : List Section :=
  let ls := splitLines raw
  let pre := ls.takeWhile (fun l => !isMarkerLine l)
  let rest := ls.dropWhile (fun l => !isMarkerLine l)
  match rest with
  | [] => [⟨SectionType.unknown, contentLines pre, 1, [1]⟩]
  | m :: tail =>
    let marked := parseMarked (sectionTypeOf (markerLabel m)) [] tail
    let markedKept :=
      (marked.map (fun b => RawBlock.mk b.type (contentLines b.lines))).filter
        (fun b => b.lines ≠ [])
    let preLines := contentLines pre
    let blocks :=
      if preLines = [] then markedKept
      else
        let introType :=
          match markedKept with
          | fb :: _ =>
            if preLines.length ≤ fb.lines.length then SectionType.intro
            else SectionType.unknown
          | [] => SectionType.unknown
        ⟨introType, preLines⟩ :: markedKept
    dedupBlocks 1 [] blocks

/-- C3: segmenting the spec's example text with a repeated hook gives
exactly two sections in first-occurrence order: the hook with lines
love, me, occurrence count 2 at positions 1 and 3, and the verse with
line foo, occurrence count 1 at position 2. -/
theorem segment_example :
    segment "[Hook]\nlove\nme\n[Verse 1]\nfoo\n[Hook]\nlove\nme" =
      [⟨SectionType.hook, ["love", "me"], 2, [1, 3]⟩,
       ⟨SectionType.verse, ["foo"], 1, [2]⟩] := by
  decide

/-- C4: for every raw text with no marker line at all, the segmenter
returns exactly one section, typed unknown, holding the text's non-blank
lines, with occurrence count 1 at position 1 — a value, not an error. -/
theorem segment_no_markers (raw : String)
    (h : ∀ l ∈ splitLines raw, isMarkerLine l = false) :
    segment raw =
      [⟨SectionType.unknown, contentLines (splitLines raw), 1, [1]⟩] := by
  have htake : (splitLines raw).takeWhile (fun l => !isMarkerLine l) = splitLines raw := by
    apply List.takeWhile_eq_self_iff.mpr
    intro l hl
    simp [h l hl]
  have hdrop : (splitLines raw).dropWhile (fun l => !isMarkerLine l) = [] := by
    apply List.dropWhile_eq_nil_iff.mpr
    intro l hl
    simp [h l hl]
  unfold segment
  simp only [htake, hdrop]

/-- Witness for C4 at a concrete input: a two-line text without markers
becomes the single unknown section holding both lines. -/
theorem segment_no_markers_witness :
    segment "hello\nworld" =
      [⟨SectionType.unknown, contentLines (splitLines "hello\nworld"), 1, [1]⟩] :=
  segment_no_markers "hello\nworld" (by decide)

/-- Strip trailing non-alphabetic characters from a letter list. -/
def stripTrailingPunct (cs : List Char) : List Char :=
  (cs.reverse.dropWhile (fun c => !c.isAlpha)).reverse

/-- Modelled from the spec: token normalization in the Corpus Aggregator
(section 4.6): lowercased and stripped of trailing punctuation. -/
def normalizeToken (w : String) : String :=
  ⟨stripTrailingPunct (w.data.map Char.toLower)⟩

/-- The normalized tokens of a line (empty results dropped). -/
def lineTokens (line : String) : List String :=
  ((splitWords line).map normalizeToken).filter (fun t => t ≠ "")

/-- Whether a theme's keyword set intersects the line's tokens. -/
def themeMatches (kws : List String) (line : String) : Bool :=
  kws.any (fun k => (lineTokens line).contains k)

/-- One ingestion step of one line for one theme entry
(theme name, keyword list, running count): the counter is incremented
once when the keyword set intersects the line's tokens, regardless of how
often a keyword occurs in the line. -/
def themeStep (line : String) (e : String × List String × Nat) :
    String × List String × Nat :=
  if themeMatches e.2.1 line then (e.1, e.2.1, e.2.2 + 1) else e

/-- Modelled from the spec: theme detection during ingestion (section
4.6, the backend service is not among the repository files): every theme
counter starts at zero and each ingested line increments the counter of
every theme whose keyword set intersects the line's tokens. -/
def themesDetected (lines : List String) (table : List (String × List String)) :
    List (String × Nat) :=
  (lines.foldl (fun acc l => acc.map (themeStep l))
      (table.map (fun p => (p.1, p.2, 0)))).map (fun e => (e.1, e.2.2))

theorem foldl_map_step (lines : List String) :
    ∀ init : List (String × List String × Nat),
      lines.foldl (fun acc l => acc.map (themeStep l)) init =
        init.map (fun e => lines.foldl (fun e l => themeStep l e) e) := by
  induction lines with
  | nil => intro init; simp
  | cons l ls ih =>
    intro init
    simp only [List.foldl_cons, ih, List.map_map]
    rfl

theorem foldl_themeStep (th : String) (kws : List String) :
    ∀ (lines : List String) (c : Nat),
      lines.foldl (fun e l => themeStep l e) (th, kws, c) =
        (th, kws, c + (lines.filter (fun l => themeMatches kws l)).length) := by
  intro lines
  induction lines with
  | nil => intro c; simp
  | cons l ls ih =>
    intro c
    rw [List.foldl_cons]
    by_cases h : themeMatches kws l
    · rw [show themeStep l (th, kws, c) = (th, kws, c + 1) from by simp [themeStep, h],
        ih, List.filter_cons_of_pos (by simpa using h), List.length_cons]
      simp only [Prod.mk.injEq]
      exact ⟨trivial, trivial, by omega⟩
    · rw [show themeStep l (th, kws, c) = (th, kws, c) from by simp [themeStep, h],
        ih, List.filter_cons_of_neg (by simpa using h)]

/-- C6: theme detection counts matching lines, not word occurrences: the
count for each theme equals the number of ingested lines whose token set
intersects the theme's keyword set; on the spec's example, the one line
money money everywhere against the keyword table mapping theme money to
the single keyword money yields a count of 1, not 2. -/
theorem themes_count_lines :
    themesDetected ["money money everywhere"] [("money", ["money"])] =
      [("money", 1)] ∧
    (∀ (lines : List String) (table : List (String × List String)),
      themesDetected lines table =
        table.map (fun p =>
          (p.1, (lines.filter (fun l => themeMatches p.2 l)).length))) := by
  constructor
  · decide
  · intro lines table
    unfold themesDetected
    rw [foldl_map_step, List.map_map, List.map_map]
    apply List.map_congr_left
    intro p _
    simp only [Function.comp_apply, foldl_themeStep, Nat.zero_add]

end KSL

namespace Studio

/-- The pages of the studio front end's store (ksl-web store with the
editor: pages studio and the one labelled as the song importer). -/
inductive Page
  | studio
  | importPage
deriving DecidableEq, Repr

/-- The spark tabs of the studio store. -/
inductive SparkTab
  | titles
  | random
  | explode
deriving DecidableEq, Repr

/-- One editor line: its text and its syllable count (null until
counted, modelled as an optional integer). -/
structure EditorLine where
  text : String
  syllables : Option Int
deriving DecidableEq, Repr

/-- The editor store's state.  The loading record maps a string key to a
Boolean; reading an absent key in the TypeScript source yields a falsy
undefined, so the record is modelled as a total function defaulting to
false. -/
structure AppState where
  currentPage : Page
  lines : List EditorLine
  theme : String
  suggestions : List String
  sparkTab : SparkTab
  loading : String → Bool

/-- The store's initial state: one empty line with a null syllable
count. -/
def initialState : AppState :=
  { currentPage := Page.studio
  , lines := [⟨"", Option.none⟩]
  , theme := ""
  , suggestions := []
  , sparkTab := SparkTab.titles
  , loading := fun _ => false }

/-- Replace the element at the given position, leaving the rest of the
list unchanged (model of an in-range indexed write to a copied array;
out-of-range writes, which the components never perform, leave the list
unchanged rather than padding it). -/
def updateAt : Nat → (EditorLine → EditorLine) → List EditorLine → List EditorLine
  | _, _, [] => []
  | 0, f, l :: ls => f l :: ls
  | i + 1, f, l :: ls => l :: updateAt i f ls

def setPage (p : Page) (s : AppState) : AppState := { s with currentPage := p }

def setLine (index : Nat) (text : String) (s : AppState) : AppState :=
  { s with lines := updateAt index (fun l => { l with text := text }) s.lines }

def setSyllables (index : Nat) (count : Int) (s : AppState) : AppState :=
  { s with lines := updateAt index (fun l => { l with syllables := some count }) s.lines }

def addLine (s : AppState) : AppState :=
  { s with lines := s.lines ++ [⟨"", Option.none⟩] }

/-- Keep the elements whose 0-based position differs from the given
index (model of filtering by index); the first argument is the index to
drop, the second the position of the list's head. -/
def filterOutIdx (index : Nat) : Nat → List EditorLine → List EditorLine
  | _, [] => []
  | i, l :: ls =>
    if i = index then filterOutIdx index (i + 1) ls
    else l :: filterOutIdx index (i + 1) ls

def removeLine (index : Nat) (s : AppState) : AppState :=
  if s.lines.length ≤ 1 then s
  else { s with lines := filterOutIdx index 0 s.lines }

def setTheme (t : String) (s : AppState) : AppState := { s with theme := t }

def setSuggestions (xs : List String) (s : AppState) : AppState :=
  { s with suggestions := xs }

/-- First index satisfying the predicate, counting from the given start
(model of findIndex, with the not-found -1 modelled as no value). -/
def findIndexAux (p : EditorLine → Bool) : Nat → List EditorLine → Option Nat
  | _, [] => Option.none
  | i, l :: ls => if p l then some i else findIndexAux p (i + 1) ls

def findIndex (p : EditorLine → Bool) (ls : List EditorLine) : Option Nat :=
  findIndexAux p 0 ls

/-- A line whose text is empty or whitespace-only (the source's falsy
test on the trimmed text). -/
def isBlankLine (l : EditorLine) : Bool := KSL.strTrim l.text = ""

def insertSuggestion (text : String) (s : AppState) : AppState :=
  match findIndex isBlankLine s.lines with
  | some i => { s with lines := s.lines.set i ⟨text, Option.none⟩, suggestions := [] }
  | Option.none => { s with lines := s.lines ++ [⟨text, Option.none⟩], suggestions := [] }

def setSparkTab (t : SparkTab) (s : AppState) : AppState := { s with sparkTab := t }

def setLoading (key : String) (val : Bool) (s : AppState) : AppState :=
  { s with loading := fun k => if k = key then val else s.loading k }

/-- The states reachable from the initial state by the store's
actions. -/
inductive Reachable : AppState → Prop
  | init : Reachable initialState
  | setPage (p : Page) (s : AppState) : Reachable s → Reachable (setPage p s)
  | setLine (i : Nat) (t : String) (s : AppState) : Reachable s → Reachable (setLine i t s)
  | setSyllables (i : Nat) (c : Int) (s : AppState) :
      Reachable s → Reachable (setSyllables i c s)
  | addLine (s : AppState) : Reachable s → Reachable (addLine s)
  | removeLine (i : Nat) (s : AppState) : Reachable s → Reachable (removeLine i s)
  | setTheme (t : String) (s : AppState) : Reachable s → Reachable (setTheme t s)
  | setSuggestions (xs : List String) (s : AppState) :
      Reachable s → Reachable (setSuggestions xs s)
  | insertSuggestion (t : String) (s : AppState) :
      Reachable s → Reachable (insertSuggestion t s)
  | setSparkTab (t : SparkTab) (s : AppState) : Reachable s → Reachable (setSparkTab t s)
  | setLoading (k : String) (v : Bool) (s : AppState) :
      Reachable s → Reachable (setLoading k v s)

theorem updateAt_length (f : EditorLine → EditorLine) :
    ∀ (i : Nat) (ls : List EditorLine), (updateAt i f ls).length = ls.length := by
  intro i
  induction i with
  | zero =>
    intro ls
    cases ls <;> simp [updateAt]
  | succ j ih =>
    intro ls
    cases ls with
    | nil => simp [updateAt]
    | cons l ls => simp [updateAt, ih]

theorem filterOutIdx_two_ne_nil (index n : Nat) (a b : EditorLine)
    (t : List EditorLine) : filterOutIdx index n (a :: b :: t) ≠ [] := by
  by_cases h : n = index
  · have h2 : ¬ (n + 1 = index) := by omega
    simp [filterOutIdx, h, h2]
  · simp [filterOutIdx, h]

/-- C8: the editor store's line list is never empty: the initial state
has exactly one line, adding a line grows the list by one, inserting a
suggestion never shrinks it, removing a line from a one-line state is the
identity, and every state reachable from the initial state by the
store's actions keeps at least one line. -/
theorem lines_never_empty :
    initialState.lines.length = 1 ∧
    (∀ (s : AppState) (i : Nat), s.lines.length = 1 → removeLine i s = s) ∧
    (∀ s : AppState, (addLine s).lines.length = s.lines.length + 1) ∧
    (∀ (s : AppState) (t : String),
      s.lines.length ≤ (insertSuggestion t s).lines.length) ∧
    (∀ s : AppState, Reachable s → 1 ≤ s.lines.length) := by
  refine ⟨rfl, ?_, ?_, ?_, ?_⟩
  · intro s i h
    simp [removeLine, h]
  · intro s
    simp [addLine]
  · intro s t
    cases hfi : findIndex isBlankLine s.lines with
    | some i => simp [insertSuggestion, hfi]
    | none => simp [insertSuggestion, hfi]
  · intro s h
    induction h with
    | init => decide
    | setPage p s hs ih => exact ih
    | setLine i t s hs ih => simpa [setLine, updateAt_length] using ih
    | setSyllables i c s hs ih => simpa [setSyllables, updateAt_length] using ih
    | addLine s hs ih => simp [addLine]
    | removeLine i s hs ih =>
      by_cases hlen : s.lines.length ≤ 1
      · simpa [removeLine, hlen] using ih
      · cases h1 : s.lines with
        | nil => rw [h1] at ih; simp at ih
        | cons a rest =>
          cases rest with
          | nil => rw [h1] at hlen; simp at hlen
          | cons b tl =>
            have hne := filterOutIdx_two_ne_nil i 0 a b tl
            simp only [removeLine, hlen, if_neg, if_false, h1]
            simpa using List.length_pos.mpr hne
    | setTheme t s hs ih => exact ih
    | setSuggestions xs s hs ih => exact ih
    | insertSuggestion t s hs ih =>
      cases hfi : findIndex isBlankLine s.lines with
      | some j => simpa [insertSuggestion, hfi] using ih
      | none =>
        simp only [insertSuggestion, hfi, List.length_append, List.length_cons]
        omega
    | setSparkTab t s hs ih => exact ih
    | setLoading k v s hs ih => exact ih

theorem findIndexAux_none (p : EditorLine → Bool) :
    ∀ (ls : List EditorLine) (n : Nat), findIndexAux p n ls = Option.none →
      ∀ x ∈ ls, p x = false := by
  intro ls
  induction ls with
  | nil => intro n _ x hx; exact absurd hx (List.not_mem_nil x)
  | cons l ls ih =>
    intro n h x hx
    by_cases hp : p l
    · simp [findIndexAux, hp] at h
    · rcases List.mem_cons.mp hx with rfl | hx2
      · simpa using hp
      · exact ih (n + 1) (by simpa [findIndexAux, hp] using h) x hx2

theorem findIndexAux_some (p : EditorLine → Bool) :
    ∀ (ls : List EditorLine) (n i : Nat), findIndexAux p n ls = some i →
      ∃ j, i = n + j ∧ (∃ x, ls.get? j = some x ∧ p x = true) ∧
        ∀ k y, k < j → ls.get? k = some y → p y = false := by
  intro ls
  induction ls with
  | nil => intro n i h; simp [findIndexAux] at h
  | cons l ls ih =>
    intro n i h
    by_cases hp : p l
    · have hn : i = n := by simpa [findIndexAux, hp] using h.symm
      refine ⟨0, by omega, ⟨l, rfl, hp⟩, ?_⟩
      intro k y hk
      exact absurd hk (Nat.not_lt_zero k)
    · have h2 : findIndexAux p (n + 1) ls = some i := by
        simpa [findIndexAux, hp] using h
      obtain ⟨j, hj, ⟨x, hx, hpx⟩, hbefore⟩ := ih (n + 1) i h2
      refine ⟨j + 1, by omega, ⟨x, by simpa using hx, hpx⟩, ?_⟩
      intro k y hk hy
      cases k with
      | zero =>
        have hyl : l = y := by simpa using hy
        rw [← hyl]
        simpa using hp
      | succ k2 =>
        exact hbefore k2 y (by omega) (by simpa using hy)

/-- C9: inserting a suggestion replaces the first empty-or-whitespace
line with the suggested text and a null syllable count when such a line
exists, appends a fresh line with that text and a null count otherwise,
and in both cases clears the suggestions list. -/
theorem insertSuggestion_spec :
    ∀ (s : AppState) (t : String),
      (insertSuggestion t s).suggestions = [] ∧
      ((∃ i x, s.lines.get? i = some x ∧ KSL.strTrim x.text = "" ∧
          (∀ k y, k < i → s.lines.get? k = some y → KSL.strTrim y.text ≠ "") ∧
          (insertSuggestion t s).lines = s.lines.set i ⟨t, Option.none⟩) ∨
        ((∀ l ∈ s.lines, KSL.strTrim l.text ≠ "") ∧
          (insertSuggestion t s).lines = s.lines ++ [⟨t, Option.none⟩])) := by
  intro s t
  cases hfi : findIndex isBlankLine s.lines with
  | some i =>
    refine ⟨by simp [insertSuggestion, hfi], Or.inl ?_⟩
    obtain ⟨j, hj, ⟨x, hx, hpx⟩, hbefore⟩ :=
      findIndexAux_some isBlankLine s.lines 0 i hfi
    have hji : j = i := by omega
    subst hji
    refine ⟨j, x, hx, by simpa [isBlankLine] using hpx, ?_, by simp [insertSuggestion, hfi]⟩
    intro k y hk hy
    have := hbefore k y hk hy
    simpa [isBlankLine] using this
  | none =>
    refine ⟨by simp [insertSuggestion, hfi], Or.inr ⟨?_, by simp [insertSuggestion, hfi]⟩⟩
    intro l hl
    have := findIndexAux_none isBlankLine s.lines 0 hfi l hl
    simpa [isBlankLine] using this

end Studio

namespace Freestyle

/-- The pages of the navigation store of the four-page front end
(freestyle, the importer page, study, songs). -/
inductive FPage
  | freestyle
  | importPage
  | study
  | songs
deriving DecidableEq, Repr

/-- The navigation store's state: the current page and the loading
record, the latter modelled as a total function defaulting to false
(reading an absent key in the TypeScript source yields a falsy
undefined). -/
structure FState where
  currentPage : FPage
  loading : String → Bool

/-- The store's initial state. -/
def initialState : FState :=
  { currentPage := FPage.freestyle, loading := fun _ => false }

def setPage (p : FPage) (s : FState) : FState := { s with currentPage := p }

/-- The loading setter: spread the old record and write the one key
(the same code appears verbatim in every store variant of the
repository). -/
def setLoading (key : String) (val : Bool) (s : FState) : FState :=
  { s with loading := fun k => if k = key then val else s.loading k }

/-- C10: setting a loading flag writes exactly the given key's entry to
the given value and leaves every other key's entry, and the state's only
other field (the current page), unchanged. -/
theorem setLoading_frame :
    ∀ (s : FState) (key : String) (val : Bool),
      (setLoading key val s).loading key = val ∧
      (∀ k : String, k ≠ key → (setLoading key val s).loading k = s.loading k) ∧
      (setLoading key val s).currentPage = s.currentPage := by
  intro s key val
  refine ⟨by simp [setLoading], ?_, rfl⟩
  intro k hk
  simp [setLoading, hk]

end Freestyle
